import Mathlib

/-!
Verification of the axis-geometry and axis-labeling core of
`src/Mod/BIM/ArchAxis.py`.

The geometric loop of `_Axis.execute` (lines 98-129) is embedded over the
real numbers: Python float trigonometry is modelled by exact real `sin`/`cos`,
and FreeCAD vectors by a three-component real record.  The label computation
`_ViewProviderAxis.getNumber` (lines 541-584) is pure string/arith code and is
embedded computably; a Python `IndexError` (out-of-range string subscript) is
modelled by `Option.none`.
-/

namespace ArchAxis

open Real

/-- `FreeCAD.Vector` restricted to the three coordinates used by the code. -/
structure Vec3 where
  x : ℝ
  y : ℝ
  z : ℝ

/-- Vector addition, as used by `p1 + unitvec * ln` in the source. -/
def Vec3.add (a b : Vec3) : Vec3 := ⟨a.x + b.x, a.y + b.y, a.z + b.z⟩

/-- Scalar multiplication on the right, `Vector * scalar` in the source. -/
def Vec3.smul (v : Vec3) (c : ℝ) : Vec3 := ⟨v.x * c, v.y * c, v.z * c⟩

/-- A `Part.LineSegment(p1, p2)`: the pair of its endpoints. -/
structure Segment where
  p1 : Vec3
  p2 : Vec3

/-- `math.radians`: degrees to radians. -/
noncomputable def radians (d : ℝ) : ℝ := d * Real.pi / 180

/-- The effective length `ln` computed at line 115 of the source:
`ln = 100 * ln if abs(math.cos(ang)) < 0.01 else ln / math.cos(ang)`
where `ang = math.radians(angleDeg)` and `ln` starts as `obj.Length.Value`. -/
noncomputable def lnOf (length angleDeg : ℝ) : ℝ :=
  if |Real.cos (radians angleDeg)| < 0.01 then 100 * length
  else length / Real.cos (radians angleDeg)

/-- The loop body of `_Axis.execute` (lines 111-125), iterating over the
(distance, angle) pairs while accumulating `dist`.  `limit` is compared for
truthiness (`obj.Limit.Value` at line 119), i.e. against zero. -/
noncomputable def genLoop (length limit : ℝ) : ℝ → List (ℝ × ℝ) → List Segment
  | _, [] => []
  | dist, da :: rest =>
    let dist2 := dist + da.1
    let ang := radians da.2
    let ln := if |Real.cos ang| < 0.01 then 100 * length else length / Real.cos ang
    let unitvec : Vec3 := ⟨Real.sin ang, Real.cos ang, 0⟩
    let p1 : Vec3 := ⟨dist2, 0, 0⟩
    let p2 := p1.add (unitvec.smul ln)
    if limit ≠ 0 then
      Segment.mk p1 (p1.add (unitvec.smul limit)) ::
        Segment.mk p2 (p2.add (unitvec.smul (-limit))) ::
          genLoop length limit dist2 rest
    else
      Segment.mk p1 p2 :: genLoop length limit dist2 rest

/-- The geometry generation of `_Axis.execute` (lines 109-125) as the pure
function `generate` of the specification: the guards are the truthiness tests
`if distances and obj.Length.Value` and `if angles and len(distances) ==
len(angles)` of lines 109-110, and the loop runs over the paired
distances/angles. -/
noncomputable def generate (distances angles : List ℝ) (length limit : ℝ) :
    List Segment :=
  if distances ≠ [] ∧ length ≠ 0 then
    if angles ≠ [] ∧ distances.length = angles.length then
      genLoop length limit 0 (distances.zip angles)
    else []
  else []

/-- The document object state read and written by `_Axis.execute`: its input
properties, its `Shape` (None before any build) and its `Placement` (kept
abstract, of an arbitrary type `P`). -/
structure AxisObj (P : Type) where
  distances : List ℝ
  angles : List ℝ
  length : ℝ
  limit : ℝ
  shape : Option (List Segment)
  placement : P

open scoped Classical in
/-- `_Axis.execute` (lines 98-129): read the placement, build the geometry,
and only when at least one segment was produced (`if geoms:` at line 126)
store the compound as `obj.Shape` and restore `obj.Placement`. -/
noncomputable def execute {P : Type} (obj : AxisObj P) : AxisObj P :=
  let pl := obj.placement
  let geoms := generate obj.distances obj.angles obj.length obj.limit
  if geoms ≠ [] then { obj with shape := some geoms, placement := pl }
  else obj

/-! ### Labeling: `_ViewProviderAxis.getNumber` -/

/-- Line 543: `chars = "abcdefghijklmnopqrstuvwxyz"`. -/
def chars : List Char := "abcdefghijklmnopqrstuvwxyz".toList

/-- Lines 544-546: the Roman conversion table. -/
def roman : List (String × Nat) :=
  [("M", 1000), ("CM", 900), ("D", 500), ("CD", 400),
   ("C", 100), ("XC", 90), ("L", 50), ("XL", 40),
   ("X", 10), ("IX", 9), ("V", 5), ("IV", 4), ("I", 1)]

/-- The inner `while n >= integer: result += numeral; n -= integer` loop of
lines 577-579, returning the accumulated string and the final `n`.  The
`0 < v` conjunct makes termination explicit; every value in the `roman`
table is positive, so on the table the guard is exactly `v ≤ n`. -/
def romanWhile (sym : String) (v : Nat) (n : Nat) : String × Nat :=
  if 0 < v ∧ v ≤ n then
    let r := romanWhile sym v (n - v)
    (sym ++ r.1, r.2)
  else ("", n)
termination_by n
decreasing_by omega

/-- The outer `for numeral, integer in roman` loop of lines 576-579. -/
def romanGo : List (String × Nat) → Nat → String
  | [], _ => ""
  | e :: rest, n =>
    let r := romanWhile e.1 e.2 n
    r.1 ++ romanGo rest r.2

/-- Python `str.zfill(width)` for an unsigned decimal string. -/
def zfill (s : String) (width : Nat) : String :=
  if s.length < width then
    String.mk (List.replicate (width - s.length) '0') ++ s
  else s

/-- The numbering styles offered by `NumberingStyle` (lines 550-582). -/
inductive LabelStyle where
  | numeric
  | numeric02
  | numeric003
  | upperAlpha
  | lowerAlpha
  | roman
  | prefixed
deriving DecidableEq, Repr

/-- Lines 556-563 (`"A,B,C"` branch): `base = num // 26`, append
`chars[base].upper()` when `base` is nonzero (a Python `IndexError`, i.e.
`none`, when `base ≥ 26`), then append `chars[num % 26].upper()`. -/
def alphaUpper (num : Nat) : Option String :=
  match (if num / 26 ≠ 0 then
          (chars.get? (num / 26)).map (fun c => String.mk [c.toUpper])
         else some "") with
  | none => none
  | some result =>
    match chars.get? (num % 26) with
    | none => none
    | some c => some (result ++ String.mk [c.toUpper])

/-- Lines 564-571 (`"a,b,c"` branch), lowercase version of `alphaUpper`. -/
def alphaLower (num : Nat) : Option String :=
  match (if num / 26 ≠ 0 then
          (chars.get? (num / 26)).map (fun c => String.mk [c])
         else some "") with
  | none => none
  | some result =>
    match chars.get? (num % 26) with
    | none => none
    | some c => some (result ++ String.mk [c])

/-- `_ViewProviderAxis.getNumber` (lines 541-584): the custom number
short-circuit of lines 547-548 followed by the style dispatch.  A Python
`IndexError` in the alphabetic branches is modelled by `none`. -/
def getNumber (num : Nat) (style : LabelStyle) (customNumber : String) :
    Option String :=
  if customNumber ≠ "" then some customNumber
  else
    match style with
    | .numeric => some (Nat.repr (num + 1))
    | .numeric02 => some (zfill (Nat.repr (num + 1)) 2)
    | .numeric003 => some (zfill (Nat.repr (num + 1)) 3)
    | .upperAlpha => alphaUpper num
    | .lowerAlpha => alphaLower num
    | .roman => some (romanGo roman (num + 1))
    | .prefixed => some ("L" ++ Nat.repr num)

/-- The specification's `label(index, style, startNumber, customOverride)`
contract (spec section 4.2): a pure function of the already-offset index;
`startNumber` is applied by the caller, not by the labeler, and is ignored
here. -/
def label (index : Nat) (style : LabelStyle) (startNumber : Nat)
    (customOverride : String) : Option String :=
  getNumber index style customOverride

/-- Modelled from the spec: the "classic subtractive (greedy) Roman-numeral
encoding" over the 13-symbol table M,CM,D,CD,C,XC,L,XL,X,IX,V,IV,I — repeat
taking the largest table value that still fits, appending its symbol and
subtracting its value. -/
def greedyRoman (n : Nat) : String :=
  if 1000 ≤ n then "M" ++ greedyRoman (n - 1000)
  else if 900 ≤ n then "CM" ++ greedyRoman (n - 900)
  else if 500 ≤ n then "D" ++ greedyRoman (n - 500)
  else if 400 ≤ n then "CD" ++ greedyRoman (n - 400)
  else if 100 ≤ n then "C" ++ greedyRoman (n - 100)
  else if 90 ≤ n then "XC" ++ greedyRoman (n - 90)
  else if 50 ≤ n then "L" ++ greedyRoman (n - 50)
  else if 40 ≤ n then "XL" ++ greedyRoman (n - 40)
  else if 10 ≤ n then "X" ++ greedyRoman (n - 10)
  else if 9 ≤ n then "IX" ++ greedyRoman (n - 9)
  else if 5 ≤ n then "V" ++ greedyRoman (n - 5)
  else if 4 ≤ n then "IV" ++ greedyRoman (n - 4)
  else if 1 ≤ n then "I" ++ greedyRoman (n - 1)
  else ""
termination_by n
decreasing_by all_goals omega

/-! ### Helper lemmas about the Roman-numeral loop -/

/-- `sym` repeated `k` times, the net effect of `k` passes of the inner
`while` loop. -/
def repStr : Nat → String → String
  | 0, _ => ""
  | k + 1, s => s ++ repStr k s

theorem romanWhile_eq (sym : String) (v : Nat) (hv : 0 < v) :
    ∀ n, romanWhile sym v n = (repStr (n / v) sym, n % v) := by
  intro n
  induction n using Nat.strong_induction_on with
  | _ n ih =>
    rw [romanWhile]
    by_cases h : v ≤ n
    · have hn : 0 < n := lt_of_lt_of_le hv h
      rw [if_pos ⟨hv, h⟩, ih (n - v) (by omega)]
      have hdiv : n / v = (n - v) / v + 1 := Nat.div_eq_sub_div hv h
      have hmod : n % v = (n - v) % v := Nat.mod_eq_sub_mod h
      rw [hdiv, hmod]
      rfl
    · rw [if_neg (by tauto), Nat.div_eq_of_lt (by omega), Nat.mod_eq_of_lt (by omega)]
      rfl

theorem romanGo_cons (sym : String) (v : Nat) (rest : List (String × Nat))
    (hv : 0 < v) (n : Nat) :
    romanGo ((sym, v) :: rest) n = repStr (n / v) sym ++ romanGo rest (n % v) := by
  rw [romanGo]
  rw [romanWhile_eq sym v hv n]

theorem romanGo_skip {n v : Nat} (h : n < v) (sym : String)
    (rest : List (String × Nat)) :
    romanGo ((sym, v) :: rest) n = romanGo rest n := by
  rw [romanGo_cons sym v rest (by omega) n,
    Nat.div_eq_of_lt h, Nat.mod_eq_of_lt h]
  rfl

theorem romanGo_step {n v : Nat} (hv : 0 < v) (h : v ≤ n) (sym : String)
    (rest : List (String × Nat)) :
    romanGo ((sym, v) :: rest) n = sym ++ romanGo ((sym, v) :: rest) (n - v) := by
  rw [romanGo_cons sym v rest hv n, romanGo_cons sym v rest hv (n - v)]
  have hdiv : n / v = (n - v) / v + 1 := Nat.div_eq_sub_div hv h
  have hmod : n % v = (n - v) % v := Nat.mod_eq_sub_mod h
  rw [hdiv, hmod, repStr]
  rw [String.append_assoc]

theorem roman_step_M {n : Nat} (h : 1000 ≤ n) :
    romanGo roman n = "M" ++ romanGo roman (n - 1000) := by
  simp only [roman]
  exact romanGo_step (by omega) h _ _

theorem roman_step_CM {n : Nat} (h : 900 ≤ n) (hu : n < 1000) :
    romanGo roman n = "CM" ++ romanGo roman (n - 900) := by
  simp only [roman]
  simp only [romanGo_skip (show n < 1000 by omega),
    romanGo_skip (show n - 900 < 1000 by omega)]
  exact romanGo_step (by omega) h _ _

theorem roman_step_D {n : Nat} (h : 500 ≤ n) (hu : n < 900) :
    romanGo roman n = "D" ++ romanGo roman (n - 500) := by
  simp only [roman]
  simp only [romanGo_skip (show n < 1000 by omega),
    romanGo_skip (show n < 900 by omega),
    romanGo_skip (show n - 500 < 1000 by omega),
    romanGo_skip (show n - 500 < 900 by omega)]
  exact romanGo_step (by omega) h _ _

theorem roman_step_CD {n : Nat} (h : 400 ≤ n) (hu : n < 500) :
    romanGo roman n = "CD" ++ romanGo roman (n - 400) := by
  simp only [roman]
  simp only [romanGo_skip (show n < 1000 by omega),
    romanGo_skip (show n < 900 by omega),
    romanGo_skip (show n < 500 by omega),
    romanGo_skip (show n - 400 < 1000 by omega),
    romanGo_skip (show n - 400 < 900 by omega),
    romanGo_skip (show n - 400 < 500 by omega)]
  exact romanGo_step (by omega) h _ _

theorem roman_step_C {n : Nat} (h : 100 ≤ n) (hu : n < 400) :
    romanGo roman n = "C" ++ romanGo roman (n - 100) := by
  simp only [roman]
  simp only [romanGo_skip (show n < 1000 by omega),
    romanGo_skip (show n < 900 by omega),
    romanGo_skip (show n < 500 by omega),
    romanGo_skip (show n < 400 by omega),
    romanGo_skip (show n - 100 < 1000 by omega),
    romanGo_skip (show n - 100 < 900 by omega),
    romanGo_skip (show n - 100 < 500 by omega),
    romanGo_skip (show n - 100 < 400 by omega)]
  exact romanGo_step (by omega) h _ _

theorem roman_step_XC {n : Nat} (h : 90 ≤ n) (hu : n < 100) :
    romanGo roman n = "XC" ++ romanGo roman (n - 90) := by
  simp only [roman]
  simp only [romanGo_skip (show n < 1000 by omega),
    romanGo_skip (show n < 900 by omega),
    romanGo_skip (show n < 500 by omega),
    romanGo_skip (show n < 400 by omega),
    romanGo_skip (show n < 100 by omega),
    romanGo_skip (show n - 90 < 1000 by omega),
    romanGo_skip (show n - 90 < 900 by omega),
    romanGo_skip (show n - 90 < 500 by omega),
    romanGo_skip (show n - 90 < 400 by omega),
    romanGo_skip (show n - 90 < 100 by omega)]
  exact romanGo_step (by omega) h _ _

theorem roman_step_L {n : Nat} (h : 50 ≤ n) (hu : n < 90) :
    romanGo roman n = "L" ++ romanGo roman (n - 50) := by
  simp only [roman]
  simp only [romanGo_skip (show n < 1000 by omega),
    romanGo_skip (show n < 900 by omega),
    romanGo_skip (show n < 500 by omega),
    romanGo_skip (show n < 400 by omega),
    romanGo_skip (show n < 100 by omega),
    romanGo_skip (show n < 90 by omega),
    romanGo_skip (show n - 50 < 1000 by omega),
    romanGo_skip (show n - 50 < 900 by omega),
    romanGo_skip (show n - 50 < 500 by omega),
    romanGo_skip (show n - 50 < 400 by omega),
    romanGo_skip (show n - 50 < 100 by omega),
    romanGo_skip (show n - 50 < 90 by omega)]
  exact romanGo_step (by omega) h _ _

theorem roman_step_XL {n : Nat} (h : 40 ≤ n) (hu : n < 50) :
    romanGo roman n = "XL" ++ romanGo roman (n - 40) := by
  simp only [roman]
  simp only [romanGo_skip (show n < 1000 by omega),
    romanGo_skip (show n < 900 by omega),
    romanGo_skip (show n < 500 by omega),
    romanGo_skip (show n < 400 by omega),
    romanGo_skip (show n < 100 by omega),
    romanGo_skip (show n < 90 by omega),
    romanGo_skip (show n < 50 by omega),
    romanGo_skip (show n - 40 < 1000 by omega),
    romanGo_skip (show n - 40 < 900 by omega),
    romanGo_skip (show n - 40 < 500 by omega),
    romanGo_skip (show n - 40 < 400 by omega),
    romanGo_skip (show n - 40 < 100 by omega),
    romanGo_skip (show n - 40 < 90 by omega),
    romanGo_skip (show n - 40 < 50 by omega)]
  exact romanGo_step (by omega) h _ _

theorem roman_step_X {n : Nat} (h : 10 ≤ n) (hu : n < 40) :
    romanGo roman n = "X" ++ romanGo roman (n - 10) := by
  simp only [roman]
  simp only [romanGo_skip (show n < 1000 by omega),
    romanGo_skip (show n < 900 by omega),
    romanGo_skip (show n < 500 by omega),
    romanGo_skip (show n < 400 by omega),
    romanGo_skip (show n < 100 by omega),
    romanGo_skip (show n < 90 by omega),
    romanGo_skip (show n < 50 by omega),
    romanGo_skip (show n < 40 by omega),
    romanGo_skip (show n - 10 < 1000 by omega),
    romanGo_skip (show n - 10 < 900 by omega),
    romanGo_skip (show n - 10 < 500 by omega),
    romanGo_skip (show n - 10 < 400 by omega),
    romanGo_skip (show n - 10 < 100 by omega),
    romanGo_skip (show n - 10 < 90 by omega),
    romanGo_skip (show n - 10 < 50 by omega),
    romanGo_skip (show n - 10 < 40 by omega)]
  exact romanGo_step (by omega) h _ _

theorem roman_step_IX {n : Nat} (h : 9 ≤ n) (hu : n < 10) :
    romanGo roman n = "IX" ++ romanGo roman (n - 9) := by
  simp only [roman]
  simp only [romanGo_skip (show n < 1000 by omega),
    romanGo_skip (show n < 900 by omega),
    romanGo_skip (show n < 500 by omega),
    romanGo_skip (show n < 400 by omega),
    romanGo_skip (show n < 100 by omega),
    romanGo_skip (show n < 90 by omega),
    romanGo_skip (show n < 50 by omega),
    romanGo_skip (show n < 40 by omega),
    romanGo_skip (show n < 10 by omega),
    romanGo_skip (show n - 9 < 1000 by omega),
    romanGo_skip (show n - 9 < 900 by omega),
    romanGo_skip (show n - 9 < 500 by omega),
    romanGo_skip (show n - 9 < 400 by omega),
    romanGo_skip (show n - 9 < 100 by omega),
    romanGo_skip (show n - 9 < 90 by omega),
    romanGo_skip (show n - 9 < 50 by omega),
    romanGo_skip (show n - 9 < 40 by omega),
    romanGo_skip (show n - 9 < 10 by omega)]
  exact romanGo_step (by omega) h _ _

theorem roman_step_V {n : Nat} (h : 5 ≤ n) (hu : n < 9) :
    romanGo roman n = "V" ++ romanGo roman (n - 5) := by
  simp only [roman]
  simp only [romanGo_skip (show n < 1000 by omega),
    romanGo_skip (show n < 900 by omega),
    romanGo_skip (show n < 500 by omega),
    romanGo_skip (show n < 400 by omega),
    romanGo_skip (show n < 100 by omega),
    romanGo_skip (show n < 90 by omega),
    romanGo_skip (show n < 50 by omega),
    romanGo_skip (show n < 40 by omega),
    romanGo_skip (show n < 10 by omega),
    romanGo_skip (show n < 9 by omega),
    romanGo_skip (show n - 5 < 1000 by omega),
    romanGo_skip (show n - 5 < 900 by omega),
    romanGo_skip (show n - 5 < 500 by omega),
    romanGo_skip (show n - 5 < 400 by omega),
    romanGo_skip (show n - 5 < 100 by omega),
    romanGo_skip (show n - 5 < 90 by omega),
    romanGo_skip (show n - 5 < 50 by omega),
    romanGo_skip (show n - 5 < 40 by omega),
    romanGo_skip (show n - 5 < 10 by omega),
    romanGo_skip (show n - 5 < 9 by omega)]
  exact romanGo_step (by omega) h _ _

theorem roman_step_IV {n : Nat} (h : 4 ≤ n) (hu : n < 5) :
    romanGo roman n = "IV" ++ romanGo roman (n - 4) := by
  simp only [roman]
  simp only [romanGo_skip (show n < 1000 by omega),
    romanGo_skip (show n < 900 by omega),
    romanGo_skip (show n < 500 by omega),
    romanGo_skip (show n < 400 by omega),
    romanGo_skip (show n < 100 by omega),
    romanGo_skip (show n < 90 by omega),
    romanGo_skip (show n < 50 by omega),
    romanGo_skip (show n < 40 by omega),
    romanGo_skip (show n < 10 by omega),
    romanGo_skip (show n < 9 by omega),
    romanGo_skip (show n < 5 by omega),
    romanGo_skip (show n - 4 < 1000 by omega),
    romanGo_skip (show n - 4 < 900 by omega),
    romanGo_skip (show n - 4 < 500 by omega),
    romanGo_skip (show n - 4 < 400 by omega),
    romanGo_skip (show n - 4 < 100 by omega),
    romanGo_skip (show n - 4 < 90 by omega),
    romanGo_skip (show n - 4 < 50 by omega),
    romanGo_skip (show n - 4 < 40 by omega),
    romanGo_skip (show n - 4 < 10 by omega),
    romanGo_skip (show n - 4 < 9 by omega),
    romanGo_skip (show n - 4 < 5 by omega)]
  exact romanGo_step (by omega) h _ _

theorem roman_step_I {n : Nat} (h : 1 ≤ n) (hu : n < 4) :
    romanGo roman n = "I" ++ romanGo roman (n - 1) := by
  simp only [roman]
  simp only [romanGo_skip (show n < 1000 by omega),
    romanGo_skip (show n < 900 by omega),
    romanGo_skip (show n < 500 by omega),
    romanGo_skip (show n < 400 by omega),
    romanGo_skip (show n < 100 by omega),
    romanGo_skip (show n < 90 by omega),
    romanGo_skip (show n < 50 by omega),
    romanGo_skip (show n < 40 by omega),
    romanGo_skip (show n < 10 by omega),
    romanGo_skip (show n < 9 by omega),
    romanGo_skip (show n < 5 by omega),
    romanGo_skip (show n < 4 by omega),
    romanGo_skip (show n - 1 < 1000 by omega),
    romanGo_skip (show n - 1 < 900 by omega),
    romanGo_skip (show n - 1 < 500 by omega),
    romanGo_skip (show n - 1 < 400 by omega),
    romanGo_skip (show n - 1 < 100 by omega),
    romanGo_skip (show n - 1 < 90 by omega),
    romanGo_skip (show n - 1 < 50 by omega),
    romanGo_skip (show n - 1 < 40 by omega),
    romanGo_skip (show n - 1 < 10 by omega),
    romanGo_skip (show n - 1 < 9 by omega),
    romanGo_skip (show n - 1 < 5 by omega),
    romanGo_skip (show n - 1 < 4 by omega)]
  exact romanGo_step (by omega) h _ _

theorem roman_go_lt_one {n : Nat} (h : n < 1) : romanGo roman n = "" := by
  simp only [roman]
  simp only [romanGo_skip (show n < 1000 by omega),
    romanGo_skip (show n < 900 by omega),
    romanGo_skip (show n < 500 by omega),
    romanGo_skip (show n < 400 by omega),
    romanGo_skip (show n < 100 by omega),
    romanGo_skip (show n < 90 by omega),
    romanGo_skip (show n < 50 by omega),
    romanGo_skip (show n < 40 by omega),
    romanGo_skip (show n < 10 by omega),
    romanGo_skip (show n < 9 by omega),
    romanGo_skip (show n < 5 by omega),
    romanGo_skip (show n < 4 by omega),
    romanGo_skip (show n < 1 by omega)]
  rfl

/-- The source's Roman loop agrees with the greedy subtractive encoding. -/
theorem romanGo_eq_greedy (n : Nat) : romanGo roman n = greedyRoman n := by
  induction n using Nat.strong_induction_on with
  | _ n ih =>
    rw [greedyRoman]
    by_cases h1 : 1000 ≤ n
    · rw [if_pos h1, ← ih (n - 1000) (by omega), roman_step_M h1]
    rw [if_neg h1]
    by_cases h2 : 900 ≤ n
    · rw [if_pos h2, ← ih (n - 900) (by omega), roman_step_CM h2 (by omega)]
    rw [if_neg h2]
    by_cases h3 : 500 ≤ n
    · rw [if_pos h3, ← ih (n - 500) (by omega), roman_step_D h3 (by omega)]
    rw [if_neg h3]
    by_cases h4 : 400 ≤ n
    · rw [if_pos h4, ← ih (n - 400) (by omega), roman_step_CD h4 (by omega)]
    rw [if_neg h4]
    by_cases h5 : 100 ≤ n
    · rw [if_pos h5, ← ih (n - 100) (by omega), roman_step_C h5 (by omega)]
    rw [if_neg h5]
    by_cases h6 : 90 ≤ n
    · rw [if_pos h6, ← ih (n - 90) (by omega), roman_step_XC h6 (by omega)]
    rw [if_neg h6]
    by_cases h7 : 50 ≤ n
    · rw [if_pos h7, ← ih (n - 50) (by omega), roman_step_L h7 (by omega)]
    rw [if_neg h7]
    by_cases h8 : 40 ≤ n
    · rw [if_pos h8, ← ih (n - 40) (by omega), roman_step_XL h8 (by omega)]
    rw [if_neg h8]
    by_cases h9 : 10 ≤ n
    · rw [if_pos h9, ← ih (n - 10) (by omega), roman_step_X h9 (by omega)]
    rw [if_neg h9]
    by_cases h10 : 9 ≤ n
    · rw [if_pos h10, ← ih (n - 9) (by omega), roman_step_IX h10 (by omega)]
    rw [if_neg h10]
    by_cases h11 : 5 ≤ n
    · rw [if_pos h11, ← ih (n - 5) (by omega), roman_step_V h11 (by omega)]
    rw [if_neg h11]
    by_cases h12 : 4 ≤ n
    · rw [if_pos h12, ← ih (n - 4) (by omega), roman_step_IV h12 (by omega)]
    rw [if_neg h12]
    by_cases h13 : 1 ≤ n
    · rw [if_pos h13, ← ih (n - 1) (by omega), roman_step_I h13 (by omega)]
    rw [if_neg h13, roman_go_lt_one (by omega)]

/-! ### Helper lemmas about the geometry loop -/

theorem genLoop_zip_limit_zero (length : ℝ) :
    ∀ (ds : List ℝ) (as : List ℝ) (d : ℝ), ds.length = as.length →
    genLoop length 0 d (ds.zip as) =
      (List.range ds.length).map (fun i =>
        let ang := radians (as.getD i 0)
        let dir : Vec3 := ⟨Real.sin ang, Real.cos ang, 0⟩
        let p1 : Vec3 := ⟨d + (ds.take (i + 1)).sum, 0, 0⟩
        Segment.mk p1 (p1.add (dir.smul (lnOf length (as.getD i 0))))) := by
  intro ds
  induction ds with
  | nil =>
    intro as d _
    simp [genLoop]
  | cons a ds ih =>
    intro as d hlen
    match as with
    | [] => simp at hlen
    | b :: as =>
      have hlen' : ds.length = as.length := by simpa using hlen
      rw [List.zip_cons_cons]
      rw [genLoop]
      rw [if_neg (by simp)]
      rw [ih as (d + a) hlen']
      rw [List.length_cons, List.range_succ_eq_map, List.map_cons, List.map_map]
      congr 1
      · simp [lnOf]
      · apply List.map_congr_left
        intro i _
        simp only [Function.comp_apply, List.getD_cons_succ, List.take_succ_cons,
          List.sum_cons]
        simp [add_assoc]

theorem genLoop_zip_limit_ne (length limit : ℝ) (hlim : limit ≠ 0) :
    ∀ (ds : List ℝ) (as : List ℝ) (d : ℝ), ds.length = as.length →
    genLoop length limit d (ds.zip as) =
      (List.range ds.length).flatMap (fun i =>
        let ang := radians (as.getD i 0)
        let dir : Vec3 := ⟨Real.sin ang, Real.cos ang, 0⟩
        let p1 : Vec3 := ⟨d + (ds.take (i + 1)).sum, 0, 0⟩
        let p2 := p1.add (dir.smul (lnOf length (as.getD i 0)))
        [Segment.mk p1 (p1.add (dir.smul limit)),
         Segment.mk p2 (p2.add (dir.smul (-limit)))]) := by
  intro ds
  induction ds with
  | nil =>
    intro as d _
    simp [genLoop]
  | cons a ds ih =>
    intro as d hlen
    match as with
    | [] => simp at hlen
    | b :: as =>
      have hlen' : ds.length = as.length := by simpa using hlen
      rw [List.zip_cons_cons]
      rw [genLoop]
      rw [if_pos hlim]
      rw [ih as (d + a) hlen']
      rw [List.length_cons, List.range_succ_eq_map, List.flatMap_cons,
        List.flatMap_map]
      simp only [List.cons_append, List.nil_append]
      congr 1
      · simp [lnOf]
      congr 1
      · simp [lnOf]
      · apply List.flatMap_congr
        intro i _
        simp only [Function.comp_apply, List.getD_cons_succ, List.take_succ_cons,
          List.sum_cons]
        simp [add_assoc]

theorem genLoop_length (length limit : ℝ) :
    ∀ (pairs : List (ℝ × ℝ)) (d : ℝ),
    (genLoop length limit d pairs).length =
      (if limit = 0 then 1 else 2) * pairs.length := by
  intro pairs
  induction pairs with
  | nil => intro d; simp [genLoop]
  | cons p rest ih =>
    intro d
    rw [genLoop]
    by_cases hlim : limit = 0
    · subst hlim
      rw [if_neg (by simp)]
      simp [ih, Nat.mul_succ]
    · rw [if_pos hlim]
      simp only [List.length_cons]
      rw [ih (d + p.1)]
      rw [if_neg hlim]
      omega

/-! ### Helper lemmas about strings and decimal representations -/

theorem append_ne_empty_left (a b : String) (h : a ≠ "") : a ++ b ≠ "" := by
  intro he
  apply h
  have hd := congrArg String.data he
  rw [String.data_append] at hd
  exact String.ext (List.append_eq_nil.mp hd).1

theorem append_ne_empty_right (a b : String) (h : b ≠ "") : a ++ b ≠ "" := by
  intro he
  apply h
  have hd := congrArg String.data he
  rw [String.data_append] at hd
  exact String.ext (List.append_eq_nil.mp hd).2

theorem mk_singleton_ne_empty (c : Char) : String.mk [c] ≠ "" := by
  intro h
  have := congrArg String.data h
  simp at this

theorem toDigitsCore_length_le (b : Nat) :
    ∀ (f n : Nat) (acc : List Char),
    acc.length ≤ (Nat.toDigitsCore b f n acc).length := by
  intro f
  induction f with
  | zero => intro n acc; exact Nat.le_refl _
  | succ f ih =>
    intro n acc
    simp only [Nat.toDigitsCore]
    split
    · simp
    · exact Nat.le_trans (Nat.le_succ _) (ih (n / b) (Nat.digitChar (n % b) :: acc))

theorem toDigits_length_pos (b n : Nat) : 0 < (Nat.toDigits b n).length := by
  rw [Nat.toDigits]
  simp only [Nat.toDigitsCore]
  split
  · simp
  · exact Nat.lt_of_lt_of_le (by simp)
      (toDigitsCore_length_le b n (n / b) [Nat.digitChar (n % b)])

theorem repr_ne_empty (n : Nat) : Nat.repr n ≠ "" := by
  intro h
  have h2 : (Nat.repr n).length = 0 := by rw [h]; rfl
  have h3 : (Nat.repr n).length = (Nat.toDigits 10 n).length := rfl
  have h4 := toDigits_length_pos 10 n
  omega

theorem zfill_ne_empty (s : String) (w : Nat) (h : s ≠ "") : zfill s w ≠ "" := by
  rw [zfill]
  split
  · exact append_ne_empty_right _ _ h
  · exact h

theorem chars_get?_eq (i : Nat) (h : i < 26) :
    chars.get? i = some (chars.getD i 'a') := by
  have hlen : chars.length = 26 := by decide
  rw [List.get?_eq_get (by omega)]
  congr 1
  rw [List.getD_eq_get?, List.get?_eq_get (by omega)]
  rfl

theorem alphaLower_lt (n : Nat) (h : n < 676) :
    ∃ s, alphaLower n = some s ∧ s ≠ "" := by
  have h2 : n % 26 < 26 := by omega
  by_cases hb : n / 26 = 0
  · refine ⟨String.mk [chars.getD (n % 26) 'a'], ?_, mk_singleton_ne_empty _⟩
    rw [alphaLower, if_neg (by simpa using hb), chars_get?_eq _ h2]
    rfl
  · have h1 : n / 26 < 26 := by omega
    refine ⟨String.mk [chars.getD (n / 26) 'a'] ++ String.mk [chars.getD (n % 26) 'a'],
      ?_, append_ne_empty_left _ _ (mk_singleton_ne_empty _)⟩
    rw [alphaLower, if_pos (by simpa using hb), chars_get?_eq _ h1,
      chars_get?_eq _ h2]
    rfl

theorem alphaUpper_lt (n : Nat) (h : n < 676) :
    ∃ s, alphaUpper n = some s ∧ s ≠ "" := by
  have h2 : n % 26 < 26 := by omega
  by_cases hb : n / 26 = 0
  · refine ⟨String.mk [(chars.getD (n % 26) 'a').toUpper], ?_, mk_singleton_ne_empty _⟩
    rw [alphaUpper, if_neg (by simpa using hb), chars_get?_eq _ h2]
    rfl
  · have h1 : n / 26 < 26 := by omega
    refine ⟨String.mk [(chars.getD (n / 26) 'a').toUpper] ++
      String.mk [(chars.getD (n % 26) 'a').toUpper],
      ?_, append_ne_empty_left _ _ (mk_singleton_ne_empty _)⟩
    rw [alphaUpper, if_pos (by simpa using hb), chars_get?_eq _ h1,
      chars_get?_eq _ h2]
    rfl

theorem greedyRoman_ne_empty (n : Nat) (h : 1 ≤ n) : greedyRoman n ≠ "" := by
  intro he
  rw [greedyRoman] at he
  by_cases h1 : 1000 ≤ n
  · rw [if_pos h1] at he
    exact append_ne_empty_left _ _ (by decide) he
  rw [if_neg h1] at he
  by_cases h2 : 900 ≤ n
  · rw [if_pos h2] at he
    exact append_ne_empty_left _ _ (by decide) he
  rw [if_neg h2] at he
  by_cases h3 : 500 ≤ n
  · rw [if_pos h3] at he
    exact append_ne_empty_left _ _ (by decide) he
  rw [if_neg h3] at he
  by_cases h4 : 400 ≤ n
  · rw [if_pos h4] at he
    exact append_ne_empty_left _ _ (by decide) he
  rw [if_neg h4] at he
  by_cases h5 : 100 ≤ n
  · rw [if_pos h5] at he
    exact append_ne_empty_left _ _ (by decide) he
  rw [if_neg h5] at he
  by_cases h6 : 90 ≤ n
  · rw [if_pos h6] at he
    exact append_ne_empty_left _ _ (by decide) he
  rw [if_neg h6] at he
  by_cases h7 : 50 ≤ n
  · rw [if_pos h7] at he
    exact append_ne_empty_left _ _ (by decide) he
  rw [if_neg h7] at he
  by_cases h8 : 40 ≤ n
  · rw [if_pos h8] at he
    exact append_ne_empty_left _ _ (by decide) he
  rw [if_neg h8] at he
  by_cases h9 : 10 ≤ n
  · rw [if_pos h9] at he
    exact append_ne_empty_left _ _ (by decide) he
  rw [if_neg h9] at he
  by_cases h10 : 9 ≤ n
  · rw [if_pos h10] at he
    exact append_ne_empty_left _ _ (by decide) he
  rw [if_neg h10] at he
  by_cases h11 : 5 ≤ n
  · rw [if_pos h11] at he
    exact append_ne_empty_left _ _ (by decide) he
  rw [if_neg h11] at he
  by_cases h12 : 4 ≤ n
  · rw [if_pos h12] at he
    exact append_ne_empty_left _ _ (by decide) he
  rw [if_neg h12] at he
  rw [if_pos h] at he
  exact append_ne_empty_left _ _ (by decide) he

theorem angles_ne_nil {distances angles : List ℝ} (hd : distances ≠ [])
    (hlen : distances.length = angles.length) : angles ≠ [] := by
  intro h
  apply hd
  rw [← List.length_eq_zero, hlen, h]
  rfl

/-! ### Claims -/

/-- C1: for every valid input (non-empty distances, equal-length angles,
positive length) and `limit = 0`, `generate` emits for each index `i` in
order one segment whose base point is `p1 = (cumulativeDistance, 0, 0)` with
`cumulativeDistance` the running sum of `distances[0..i]`, and whose end
point is `p2 = p1 + dir * ln` with `dir = (sin(radians(angles[i])),
cos(radians(angles[i])), 0)`; in particular `generate([0], [0], 1000, 0)`
yields exactly one segment from `(0,0,0)` to `(0,1000,0)`. -/
theorem generate_limit_zero_eq (distances angles : List ℝ) (length : ℝ)
    (hd : distances ≠ []) (hl : 0 < length)
    (hlen : distances.length = angles.length) :
    generate distances angles length 0 =
      (List.range distances.length).map (fun i =>
        let cumulativeDistance := (distances.take (i + 1)).sum
        let ang := radians (angles.getD i 0)
        let dir : Vec3 := ⟨Real.sin ang, Real.cos ang, 0⟩
        let p1 : Vec3 := ⟨cumulativeDistance, 0, 0⟩
        Segment.mk p1 (p1.add (dir.smul (lnOf length (angles.getD i 0))))) ∧
    generate [0] [0] 1000 0 = [Segment.mk ⟨0, 0, 0⟩ ⟨0, 1000, 0⟩] := by
  constructor
  · rw [generate, if_pos ⟨hd, ne_of_gt hl⟩,
      if_pos ⟨angles_ne_nil hd hlen, hlen⟩]
    rw [genLoop_zip_limit_zero length distances angles 0 hlen]
    apply List.map_congr_left
    intro i _
    simp [zero_add]
  · rw [generate, if_pos ⟨by simp, by norm_num⟩, if_pos ⟨by simp, rfl⟩]
    simp only [List.zip_cons_cons, List.zip_nil_right]
    rw [genLoop, if_neg (by simp), genLoop]
    simp only [radians, Vec3.add, Vec3.smul, Segment.mk.injEq, Vec3.mk.injEq]
    norm_num [Real.cos_zero, Real.sin_zero]

theorem generate_limit_zero_eq_witness :
    generate [0] [0] 1000 0 = [Segment.mk ⟨0, 0, 0⟩ ⟨0, 1000, 0⟩] :=
  (generate_limit_zero_eq [0] [0] 1000 (by simp) (by norm_num) rfl).2

/-- C2: the effective axis length is `ln = 100 * length` when
`|cos(radians(angle))| < 0.01` and `ln = length / cos(radians(angle))`
otherwise; in the non-singular branch the projection of `dir * ln` onto the
baseline direction, i.e. `cos(radians(angle)) * ln`, equals the nominal
`length`; in particular `generate([0], [90], 1000, 0)` takes the
near-singular branch and yields a single segment from `(0,0,0)` to
`(100000,0,0)`, of length `100 * 1000 = 100000` along direction `(1,0,0)`. -/
theorem lnOf_spec :
    (∀ (length angleDeg : ℝ),
      (|Real.cos (radians angleDeg)| < 0.01 →
        lnOf length angleDeg = 100 * length) ∧
      (¬ |Real.cos (radians angleDeg)| < 0.01 →
        lnOf length angleDeg = length / Real.cos (radians angleDeg) ∧
        Real.cos (radians angleDeg) * lnOf length angleDeg = length)) ∧
    generate [0] [90] 1000 0 = [Segment.mk ⟨0, 0, 0⟩ ⟨100000, 0, 0⟩] := by
  constructor
  · intro length angleDeg
    constructor
    · intro h
      rw [lnOf, if_pos h]
    · intro h
      have hcos : Real.cos (radians angleDeg) ≠ 0 := by
        intro h0
        apply h
        rw [h0]
        norm_num
      refine ⟨by rw [lnOf, if_neg h], ?_⟩
      rw [lnOf, if_neg h]
      field_simp
  · have hrad : radians 90 = Real.pi / 2 := by rw [radians]; ring
    rw [generate, if_pos ⟨by simp, by norm_num⟩, if_pos ⟨by simp, rfl⟩]
    simp only [List.zip_cons_cons, List.zip_nil_right]
    rw [genLoop, if_neg (by simp), genLoop]
    simp only [hrad, Real.cos_pi_div_two, Real.sin_pi_div_two]
    simp only [Vec3.add, Vec3.smul, Segment.mk.injEq, Vec3.mk.injEq]
    norm_num

theorem lnOf_spec_witness :
    lnOf 1000 90 = 100 * 1000 ∧ Real.cos (radians 0) * lnOf 1000 0 = 1000 :=
  ⟨(lnOf_spec.1 1000 90).1
    (by
      rw [show radians 90 = Real.pi / 2 by rw [radians]; ring,
        Real.cos_pi_div_two]
      norm_num),
   ((lnOf_spec.1 1000 0).2
    (by
      rw [show radians 0 = 0 by rw [radians]; ring, Real.cos_zero]
      norm_num)).2⟩

/-- C3: for every valid input with `limit > 0`, `generate` emits for each
index `i` exactly two segments, one from `p1` to `p1 + dir * limit` and one
from `p2` to `p2 + dir * (-limit) = p2 - dir * limit`, instead of the single
full line from `p1` to `p2` emitted when `limit` is zero; the formula never
clamps `limit` against `ln`. -/
theorem generate_limit_pos_eq (distances angles : List ℝ) (length limit : ℝ)
    (hd : distances ≠ []) (hl : 0 < length)
    (hlen : distances.length = angles.length) (hlim : 0 < limit) :
    generate distances angles length limit =
      (List.range distances.length).flatMap (fun i =>
        let cumulativeDistance := (distances.take (i + 1)).sum
        let ang := radians (angles.getD i 0)
        let dir : Vec3 := ⟨Real.sin ang, Real.cos ang, 0⟩
        let p1 : Vec3 := ⟨cumulativeDistance, 0, 0⟩
        let p2 := p1.add (dir.smul (lnOf length (angles.getD i 0)))
        [Segment.mk p1 (p1.add (dir.smul limit)),
         Segment.mk p2 (p2.add (dir.smul (-limit)))]) := by
  rw [generate, if_pos ⟨hd, ne_of_gt hl⟩,
    if_pos ⟨angles_ne_nil hd hlen, hlen⟩]
  rw [genLoop_zip_limit_ne length limit (ne_of_gt hlim) distances angles 0 hlen]
  apply List.flatMap_congr
  intro i _
  simp [zero_add]

theorem generate_limit_pos_eq_witness :
    generate [0] [0] 1000 2000 =
      [Segment.mk ⟨0, 0, 0⟩ ⟨0, 2000, 0⟩,
       Segment.mk ⟨0, 1000, 0⟩ ⟨0, -1000, 0⟩] := by
  rw [generate_limit_pos_eq [0] [0] 1000 2000 (by simp) (by norm_num) rfl
    (by norm_num)]
  have hrad : radians 0 = 0 := by rw [radians]; ring
  have hln : lnOf 1000 0 = 1000 := by
    rw [lnOf, hrad, Real.cos_zero, if_neg (by norm_num)]
    norm_num
  simp only [show ([0] : List ℝ).length = 1 from rfl,
    show List.range 1 = [0] by decide]
  simp only [List.flatMap_cons, List.flatMap_nil, List.append_nil]
  simp only [List.getD_cons_zero, List.take_succ_cons, List.take_nil,
    List.sum_cons, List.sum_nil, hrad, hln, Real.cos_zero, Real.sin_zero]
  simp only [Vec3.add, Vec3.smul, List.cons.injEq, Segment.mk.injEq,
    Vec3.mk.injEq]
  norm_num

/-- C4: for every valid input, the number of segments returned by `generate`
equals `len(distances)` when `limit = 0` and `2 * len(distances)` when
`limit > 0`. -/
theorem generate_count (distances angles : List ℝ) (length limit : ℝ)
    (hd : distances ≠ []) (hl : 0 < length)
    (hlen : distances.length = angles.length) :
    (limit = 0 → (generate distances angles length limit).length =
      distances.length) ∧
    (0 < limit → (generate distances angles length limit).length =
      2 * distances.length) := by
  have hguard :
      generate distances angles length limit =
        genLoop length limit 0 (distances.zip angles) := by
    rw [generate, if_pos ⟨hd, ne_of_gt hl⟩,
      if_pos ⟨angles_ne_nil hd hlen, hlen⟩]
  constructor
  · intro h0
    rw [hguard, genLoop_length, if_pos h0, List.length_zip, hlen, min_self,
      one_mul]
  · intro hpos
    rw [hguard, genLoop_length, if_neg (ne_of_gt hpos), List.length_zip, hlen,
      min_self]

theorem generate_count_witness :
    (generate [1, 2] [0, 45] 5 0).length = 2 ∧
    (generate [1, 2] [0, 45] 5 7).length = 4 :=
  ⟨(generate_count [1, 2] [0, 45] 5 0 (by simp) (by norm_num) rfl).1 rfl,
   (generate_count [1, 2] [0, 45] 5 7 (by simp) (by norm_num) rfl).2
     (by norm_num)⟩

/-- C5: whenever `distances` is empty, or `length ≤ 0`, or the distances and
angles sequences have different lengths, `generate` returns the empty list.
The hypothesis `0 ≤ length` records that `obj.Length` is an
`App::PropertyLength`, a non-negative quantity, so `length ≤ 0` reaches the
code only as `length = 0`, which falsifies the truthiness guard
`obj.Length.Value` of line 109. -/
theorem generate_degenerate_empty (distances angles : List ℝ)
    (length limit : ℝ) (hnn : 0 ≤ length)
    (h : distances = [] ∨ length ≤ 0 ∨ distances.length ≠ angles.length) :
    generate distances angles length limit = [] := by
  rw [generate]
  rcases h with h | h | h
  · rw [if_neg (by simp [h])]
  · have h0 : length = 0 := le_antisymm h hnn
    rw [if_neg (by simp [h0])]
  · by_cases h1 : distances ≠ [] ∧ length ≠ 0
    · rw [if_pos h1, if_neg (by tauto)]
    · rw [if_neg h1]

theorem generate_degenerate_empty_witness :
    generate [1, 2] [0] 100 0 = [] :=
  generate_degenerate_empty [1, 2] [0] 100 0 (by norm_num)
    (Or.inr (Or.inr (by simp)))

/-- C6, counterexample: the claim's example `label(25, LowerAlpha, 1, "") ==
"az"` is false — `25 // 26 = 0`, so the leading character is omitted and the
code returns `"z"`. -/
theorem alpha_label_25_ne_az :
    label 25 LabelStyle.lowerAlpha 1 "" = some "z" ∧
    label 25 LabelStyle.lowerAlpha 1 "" ≠ some "az" := by
  decide

/-- C6, amended: for every index `n` with `n / 26 < 26` and empty custom
override, the UpperAlpha/LowerAlpha label is the concatenation of
`chars[n // 26]` (omitted when `n // 26` is zero) and `chars[n % 26]`, with
`chars` mapping 0–25 to a–z (upper-cased for UpperAlpha); in particular
`label(25, LowerAlpha, 1, "") == "z"` (not `"az"`) and
`label(26, LowerAlpha, 1, "") == "ba"`. -/
theorem alpha_label_eq (n startNumber : Nat) (h : n / 26 < 26) :
    (label n LabelStyle.lowerAlpha startNumber "" =
      some ((if n / 26 = 0 then "" else String.mk [chars.getD (n / 26) 'a']) ++
        String.mk [chars.getD (n % 26) 'a']) ∧
     label n LabelStyle.upperAlpha startNumber "" =
      some ((if n / 26 = 0 then ""
             else String.mk [(chars.getD (n / 26) 'a').toUpper]) ++
        String.mk [(chars.getD (n % 26) 'a').toUpper])) ∧
    label 25 LabelStyle.lowerAlpha 1 "" = some "z" ∧
    label 26 LabelStyle.lowerAlpha 1 "" = some "ba" := by
  refine ⟨⟨?_, ?_⟩, by decide, by decide⟩
  · rw [label, getNumber, if_neg (by simp)]
    show alphaLower n = _
    have h2 : n % 26 < 26 := by omega
    by_cases hb : n / 26 = 0
    · rw [alphaLower, if_neg (by simpa using hb), chars_get?_eq _ h2, if_pos hb]
    · rw [alphaLower, if_pos (by simpa using hb), chars_get?_eq _ h,
        chars_get?_eq _ h2, if_neg hb]
      rfl
  · rw [label, getNumber, if_neg (by simp)]
    show alphaUpper n = _
    have h2 : n % 26 < 26 := by omega
    by_cases hb : n / 26 = 0
    · rw [alphaUpper, if_neg (by simpa using hb), chars_get?_eq _ h2, if_pos hb]
    · rw [alphaUpper, if_pos (by simpa using hb), chars_get?_eq _ h,
        chars_get?_eq _ h2, if_neg hb]
      rfl

theorem alpha_label_eq_witness : label 30 LabelStyle.lowerAlpha 1 "" = some "be" := by
  have h := (alpha_label_eq 30 1 (by omega)).1.1
  rw [h]
  decide

/-- C7: for every index `n` with empty custom override, the Roman label is
the classic subtractive greedy Roman-numeral encoding of `n + 1` over the
table M,CM,D,CD,C,XC,L,XL,X,IX,V,IV,I; in particular
`label(3, Roman, 1, "") == "IV"` and `label(0, Roman, 1, "") == "I"`. -/
theorem roman_label_eq_greedy :
    (∀ (n startNumber : Nat),
      label n LabelStyle.roman startNumber "" = some (greedyRoman (n + 1))) ∧
    label 3 LabelStyle.roman 1 "" = some "IV" ∧
    label 0 LabelStyle.roman 1 "" = some "I" := by
  have hgen : ∀ (n sn : Nat),
      label n LabelStyle.roman sn "" = some (greedyRoman (n + 1)) := by
    intro n sn
    rw [label, getNumber, if_neg (by simp)]
    show some (romanGo roman (n + 1)) = _
    rw [romanGo_eq_greedy (n + 1)]
  refine ⟨hgen, ?_, ?_⟩
  · rw [hgen 3 1]
    simp [greedyRoman]
  · rw [hgen 0 1]
    simp [greedyRoman]

/-- C8: for every index, style and start number, a non-empty
`customOverride` is returned unchanged. -/
theorem label_custom_override (n : Nat) (style : LabelStyle) (sn : Nat)
    (c : String) (h : c ≠ "") : label n style sn c = some c := by
  rw [label, getNumber.eq_def, if_pos h]

theorem label_custom_override_witness :
    label 7 LabelStyle.roman 3 "CUSTOM" = some "CUSTOM" :=
  label_custom_override 7 LabelStyle.roman 3 "CUSTOM" (by decide)

/-- C9, counterexample: at index 676 with an alphabetic style the code
evaluates `chars[676 // 26] = chars[26]`, an out-of-range subscript — a
Python `IndexError` (modelled as `none`) rather than a silently duplicated
label. -/
theorem alpha_label_676_none : label 676 LabelStyle.lowerAlpha 1 "" = none := by
  decide

/-- C9, amended: for every index and style — provided the index is below 676
when the style is alphabetic, since alphabetic indices ≥ 676 raise an
`IndexError` instead of silently duplicating labels — `label` returns a
deterministic non-empty string and raises no exception. -/
theorem label_total_nonempty (n : Nat) (style : LabelStyle) (sn : Nat)
    (h : style = LabelStyle.upperAlpha ∨ style = LabelStyle.lowerAlpha →
      n < 676) :
    ∃ s, label n style sn "" = some s ∧ s ≠ "" := by
  cases style with
  | numeric =>
    exact ⟨Nat.repr (n + 1), by rw [label, getNumber, if_neg (by simp)],
      repr_ne_empty (n + 1)⟩
  | numeric02 =>
    exact ⟨zfill (Nat.repr (n + 1)) 2,
      by rw [label, getNumber, if_neg (by simp)],
      zfill_ne_empty _ _ (repr_ne_empty (n + 1))⟩
  | numeric003 =>
    exact ⟨zfill (Nat.repr (n + 1)) 3,
      by rw [label, getNumber, if_neg (by simp)],
      zfill_ne_empty _ _ (repr_ne_empty (n + 1))⟩
  | upperAlpha =>
    obtain ⟨s, hs, hne⟩ := alphaUpper_lt n (h (Or.inl rfl))
    exact ⟨s, by rw [label, getNumber, if_neg (by simp)]; exact hs, hne⟩
  | lowerAlpha =>
    obtain ⟨s, hs, hne⟩ := alphaLower_lt n (h (Or.inr rfl))
    exact ⟨s, by rw [label, getNumber, if_neg (by simp)]; exact hs, hne⟩
  | roman =>
    refine ⟨romanGo roman (n + 1),
      by rw [label, getNumber, if_neg (by simp)], ?_⟩
    rw [romanGo_eq_greedy (n + 1)]
    exact greedyRoman_ne_empty (n + 1) (Nat.succ_le_succ (Nat.zero_le n))
  | prefixed =>
    exact ⟨"L" ++ Nat.repr n, by rw [label, getNumber, if_neg (by simp)],
      append_ne_empty_left _ _ (by decide)⟩

theorem label_total_nonempty_witness :
    ∃ s, label 700 LabelStyle.roman 1 "" = some s ∧ s ≠ "" :=
  label_total_nonempty 700 LabelStyle.roman 1 (by decide)

/-- C10: when the degenerate precondition holds and no geometry is
generated, `execute` leaves the object untouched — in particular the
previously stored `Shape` is not replaced — since the assignments of lines
127-129 run only under `if geoms:`. -/
theorem execute_frame {P : Type} (obj : AxisObj P)
    (h : generate obj.distances obj.angles obj.length obj.limit = []) :
    execute obj = obj := by
  rw [execute]
  simp [h]

theorem execute_frame_witness :
    execute (AxisObj.mk [] [] 100 0
      (some [Segment.mk ⟨1, 1, 1⟩ ⟨2, 2, 2⟩]) ()) =
    AxisObj.mk [] [] 100 0 (some [Segment.mk ⟨1, 1, 1⟩ ⟨2, 2, 2⟩]) () :=
  execute_frame _ (by rw [generate, if_neg (by simp)])

end ArchAxis
